import Mathlib

/-!
Verification of the one2html rich-text and embedded-file renderers
(`src/page/rich_text.rs`, `src/page/embedded_file.rs`).

Text is embedded as `List Char` (Rust `String` iterated with `chars()`;
splitting in `parse_content` is by character index).  Fallible code and
`panic!`/`unimplemented!` aborts are embedded as `Except String`.
-/

/-- The `<br>` string that replaces vertical tabs, line feeds and carriage
returns in `fix_newlines` (rich_text.rs line 242-245). -/
def brTag : List Char := ['<', 'b', 'r', '>']

/-- One literal `&nbsp;` entity. -/
def nbspEntity : List Char := ['&', 'n', 'b', 's', 'p', ';']

/-- `n` copies of the `&nbsp;` entity, as produced by
`"&nbsp;".repeat(captures[1].len())` in `fix_newlines`. -/
def nbspRep (n : Nat) : List Char := (List.replicate n nbspEntity).flatten

/-- The character class matched by the Rust regex `\s` (Unicode-aware
default of the `regex` crate): the Unicode White_Space property. -/
def isWs (c : Char) : Bool :=
  c = ' ' || c = '\t' || c = '\n' || c.toNat = 0x0B || c.toNat = 0x0C ||
  c = '\r' || c.toNat = 0x85 || c.toNat = 0xA0 || c.toNat = 0x1680 ||
  (decide (0x2000 ≤ c.toNat) && decide (c.toNat ≤ 0x200A)) ||
  c.toNat = 0x2028 || c.toNat = 0x2029 || c.toNat = 0x202F ||
  c.toNat = 0x205F || c.toNat = 0x3000

/-- UTF-8 byte width of a character; `captures[1].len()` in the regex
replacement closure counts bytes of the matched text, not characters. -/
def charBytes (c : Char) : Nat :=
  if c.toNat < 0x80 then 1
  else if c.toNat < 0x800 then 2
  else if c.toNat < 0x10000 then 3
  else 4

/-- UTF-8 byte length of a character list (Rust `str::len`). -/
def utf8_len (l : List Char) : Nat := (l.map charBytes).sum

/-- `String::replace` with a single-character pattern: every occurrence of
`c` is replaced by `rep`, all other characters are kept. -/
def replaceChar (c : Char) (rep : List Char) : List Char → List Char
  | [] => []
  | x :: xs => (if x = c then rep else [x]) ++ replaceChar c rep xs

/-- Fuelled scanner for `REGEX_LEADING_SPACES.replace_all`: each
non-overlapping, leftmost match of `<br>(\s+)` (greedy, so the whitespace
run is maximal) is replaced by `<br>` followed by one `&nbsp;` entity per
UTF-8 byte of the captured run.  The fuel is only a structural-recursion
device; `fixSpaces` supplies enough for the whole input. -/
def fixSpacesF : Nat → List Char → List Char
  | _, [] => []
  | 0, _ :: _ => []
  | fuel + 1, c :: cs =>
    if brTag.isPrefixOf (c :: cs) ∧ ((c :: cs).drop 4).takeWhile isWs ≠ [] then
      brTag ++ nbspRep (utf8_len (((c :: cs).drop 4).takeWhile isWs)) ++
        fixSpacesF fuel (((c :: cs).drop 4).dropWhile isWs)
    else
      c :: fixSpacesF fuel cs

/-- The `REGEX_LEADING_SPACES.replace_all` pass of `fix_newlines`. -/
def fixSpaces (l : List Char) : List Char := fixSpacesF l.length l

/-- `fix_newlines` (rich_text.rs lines 238-252): replace U+000B, `\n` and
`\r` each with `<br>`, then rewrite every whitespace run that immediately
follows a `<br>` into `&nbsp;` entities. -/
def fix_newlines (text : List Char) : List Char :=
  fixSpaces (replaceChar '\r' brTag (replaceChar '\n' brTag
    (replaceChar '\u000B' brTag text)))

/-- `ColorRef` from the upstream document model: automatic or manual RGB. -/
inductive ColorRef where
  | auto : ColorRef
  | manual (r g b : Nat) : ColorRef
deriving DecidableEq

/-- `ParagraphAlignment` from the upstream document model; `parse_style`
only ever asks whether an alignment is present. -/
inductive ParagraphAlignment where
  | left | center | right
deriving DecidableEq

/-- The fields of `onenote_parser`'s `ParagraphStyling` that the renderer
reads.  The `f32` spacing values are embedded as rationals: the renderer
only compares them with `0.0`. -/
structure ParagraphStyling where
  bold : Bool
  italic : Bool
  underline : Bool
  superscript : Bool
  subscript : Bool
  strikethrough : Bool
  font : Option (List Char)
  font_size : Option Nat
  font_color : Option ColorRef
  highlight : Option ColorRef
  paragraph_alignment : Option ParagraphAlignment
  paragraph_space_before : Option Rat
  paragraph_space_after : Option Rat
  paragraph_line_spacing_exact : Option Rat
  hyperlink : Bool
  math_formatting : Bool
deriving DecidableEq

/-- Modelled from the spec: `utils::StyleSet` (not under `src/`) is an
ordered mapping from property name to value; `set` inserts at the end or
overwrites in place, iteration order is first-insertion order. -/
abbrev StyleSet : Type := List (List Char × List Char)

/-- Modelled from the spec: `StyleSet::set` inserts or overwrites,
keeping the key's original position on overwrite. -/
def StyleSet.set (ss : StyleSet) (k v : List Char) : StyleSet :=
  if (ss.map Prod.fst).contains k then
    ss.map (fun kv => if kv.1 = k then (k, v) else kv)
  else
    ss ++ [(k, v)]

/-- Modelled from the spec: serialization of a `StyleSet` is
`"k1:v1;k2:v2;…"` in insertion order (the `Display` used by the
`format!` calls in rich_text.rs). -/
def serialize (ss : StyleSet) : List Char :=
  (ss.map (fun kv => kv.1 ++ ':' :: kv.2 ++ [';'])).flatten

/-- Number of declarations in a `StyleSet` (`style.len()`). -/
def StyleSet.size (ss : StyleSet) : Nat := List.length ss

/-- Rendering of a half-point font size: `((size as f32) / 2.0).to_string()
+ "pt"`.  Every `u16` half-point value is exact in `f32` and prints either
as an integer or with a trailing `.5`. -/
def half_pt (n : Nat) : List Char :=
  if n % 2 = 0 then (Nat.repr (n / 2)).data ++ ['p', 't']
  else (Nat.repr (n / 2)).data ++ ['.', '5', 'p', 't']

/-- `format!("rgb({},{},{})", r, g, b)`. -/
def rgb_str (r g b : Nat) : List Char :=
  "rgb(".data ++ (Nat.repr r).data ++ [','] ++ (Nat.repr g).data ++ [','] ++
    (Nat.repr b).data ++ [')'].append []

/-- `space != 0.0` under an `if let Some(space)` (rich_text.rs 205-221). -/
def spacing_nonzero : Option Rat → Bool
  | some x => decide (x ≠ 0)
  | none => false

/-- `parse_style` (rich_text.rs lines 158-231).  The four
`unimplemented!()` panics on run-level paragraph attributes are embedded
as `Except.error "not implemented"`; the math-formatting flag is a no-op
exactly as in the source. -/
def parse_style (style : ParagraphStyling) : Except String StyleSet :=
  let s : StyleSet := []
  let s := if style.bold then s.set "font-weight".data "bold".data else s
  let s := if style.italic then s.set "font-style".data "italic".data else s
  let s := if style.underline then s.set "text-decoration".data "underline".data else s
  let s := if style.superscript then s.set "vertical-align".data "super".data else s
  let s := if style.subscript then s.set "vertical-align".data "sub".data else s
  let s := if style.strikethrough then s.set "text-decoration".data "line-through".data else s
  let s := match style.font with
    | some f => s.set "font-family".data f
    | none => s
  let s := match style.font_size with
    | some n => s.set "font-size".data (half_pt n)
    | none => s
  let s := match style.font_color with
    | some (ColorRef.manual r g b) => s.set "color".data (rgb_str r g b)
    | _ => s
  let s := match style.highlight with
    | some (ColorRef.manual r g b) => s.set "background-color".data (rgb_str r g b)
    | _ => s
  if style.paragraph_alignment.isSome then Except.error "not implemented"
  else if spacing_nonzero style.paragraph_space_before then Except.error "not implemented"
  else if spacing_nonzero style.paragraph_space_after then Except.error "not implemented"
  else if spacing_nonzero style.paragraph_line_spacing_exact then Except.error "not implemented"
  else Except.ok s

/-- The reserved hyperlink marker `"\u{fddf}HYPERLINK \""`
(rich_text.rs line 101). -/
def HYPERLINK_MARKER : List Char := '\uFDDF' :: "HYPERLINK \"".data

/-- `text.strip_prefix(HYPERLINK_MARKER)`. -/
def strip_marker (t : List Char) : Option (List Char) :=
  if HYPERLINK_MARKER.isPrefixOf t then some (t.drop HYPERLINK_MARKER.length)
  else none

/-- `str::strip_suffix('"')`. -/
def strip_suffix_quote (t : List Char) : Option (List Char) :=
  match t.reverse with
  | c :: rest => if c = '"' then some rest.reverse else none
  | [] => none

/-- `format!("<a href=\"{}\" style=\"{}\">", url, style)`. -/
def a_tag_open (url : List Char) (ss : StyleSet) : List Char :=
  "<a href=\"".data ++ url ++ "\" style=\"".data ++ serialize ss ++ "\">".data

/-- `render_hyperlink` (rich_text.rs lines 95-121).  The `wrap_err`ed
`Option`s become `Except.error` with the same message. -/
def render_hyperlink (text : List Char) (style : ParagraphStyling)
    (in_hyperlink : Bool) : Except String (List Char) :=
  match parse_style style with
  | Except.error e => Except.error e
  | Except.ok ss =>
    if HYPERLINK_MARKER.isPrefixOf text then
      match strip_marker text with
      | none => Except.error "Hyperlink has no start marker"
      | some rest =>
        match strip_suffix_quote rest with
        | none => Except.error "Hyperlink has no end marker"
        | some url => Except.ok (a_tag_open url ss)
    else if in_hyperlink then
      Except.ok (text ++ "</a>".data)
    else
      Except.ok (a_tag_open text ss ++ text ++ "</a>".data)

/-- `format!("<span style=\"{}\">{}</span>", style, text)`. -/
def span_wrap (ss : StyleSet) (t : List Char) : List Char :=
  "<span style=\"".data ++ serialize ss ++ "\">".data ++ t ++ "</span>".data

/-- The run-rendering closure of `parse_content` (rich_text.rs lines
66-90): fold over the zipped (part, style) pairs threading the
`in_hyperlink` flag, which the source sets to `true` after every
hyperlink-flagged run and to `false` after every other run; the
`collect::<Result<String>>()` stops at the first error. -/
def renderRuns : List (List Char × ParagraphStyling) → Bool →
    Except String (List Char)
  | [], _ => Except.ok []
  | (t, st) :: rest, inH =>
    if st.hyperlink then
      match render_hyperlink t st inH with
      | Except.error e => Except.error e
      | Except.ok piece =>
        match renderRuns rest true with
        | Except.error e => Except.error e
        | Except.ok more => Except.ok (piece ++ more)
    else
      match parse_style st with
      | Except.error e => Except.error e
      | Except.ok ss =>
        let piece := if ss.size > 0 then span_wrap ss t else t
        match renderRuns rest false with
        | Except.error e => Except.error e
        | Except.ok more => Except.ok (piece ++ more)

/-- The splitting loop of `parse_content` (rich_text.rs lines 55-60):
iterate over the indices from the highest to the lowest, each step cutting
`text.chars().skip(i)` off as a part and keeping `text.chars().take(i)`.
The first component lists the cut parts in push order, the second is the
remaining text.  The caller passes the indices already reversed. -/
def cutLoop : List Char → List Nat → List (List Char) × List Char
  | text, [] => ([], text)
  | text, i :: rest =>
    let p := cutLoop (text.take i) rest
    (text.drop i :: p.1, p.2)

/-- Parts of the text produced by `parse_content`'s splitting loop, in run
order: the loop's parts plus the final remaining text, reversed
(`parts.into_iter().rev()`). -/
def splitText (text : List Char) (indices : List Nat) : List (List Char) :=
  let p := cutLoop text indices.reverse
  (p.1 ++ [p.2]).reverse

/-- The slice of the upstream `RichText` node that `parse_content`
reads: `text()`, `text_run_indices()`, `text_run_formatting()`. -/
structure RichText where
  text : List Char
  text_run_indices : List Nat
  text_run_formatting : List ParagraphStyling

/-- `parse_content` (rich_text.rs lines 36-93).  The
`assert!(indices.len() + 1 >= styles.len())` panic is embedded as an
error; the zip of the run-ordered parts with the style records truncates
at the shorter list exactly as `Iterator::zip` does. -/
def parse_content (data : RichText) : Except String (List Char) :=
  let indices := data.text_run_indices
  let styles := data.text_run_formatting
  let text := data.text
  if text = [] then Except.ok "&nbsp;".data
  else if indices = [] then Except.ok (fix_newlines text)
  else if indices.length + 1 < styles.length then
    Except.error "assertion failed: indices.len() + 1 >= styles.len()"
  else
    match renderRuns ((splitText text indices).zip styles) false with
    | Except.error e => Except.error e
    | Except.ok content => Except.ok (fix_newlines content)

/-- Index of the last `'.'` in a character list, if any
(`PathBuf::extension` looks after the last dot of the file name). -/
def last_dot_idx : List Char → Option Nat
  | [] => none
  | c :: rest =>
    match last_dot_idx rest with
    | some i => some (i + 1)
    | none => if c = '.' then some 0 else none

/-- `PathBuf::from(filename).extension()` for a plain file name (the
declared attachment names carry no directory separators): the text after
the last dot, or `none` when there is no dot, the only dot starts the
name, or the name is `".."`. -/
def rust_extension (s : List Char) : Option (List Char) :=
  if s = ['.', '.'] then none
  else
    match last_dot_idx s with
    | none => none
    | some 0 => none
    | some i => some (s.drop (i + 1))

/-- `str::strip_suffix` with a string pattern. -/
def strip_suffixL (suf s : List Char) : Option (List Char) :=
  if suf.isSuffixOf s then some (s.take (s.length - suf.length)) else none

/-- `str::trim_matches('.')`: remove leading and trailing dots. -/
def trim_dots (s : List Char) : List Char :=
  ((s.dropWhile (fun c => c = '.')).reverse.dropWhile (fun c => c = '.')).reverse

/-- `format!("{}-{}.{}", base, i, ext)`. -/
def mk_candidate (base : List Char) (i : Nat) (ext : List Char) : List Char :=
  base ++ '-' :: (Nat.repr i).data ++ '.' :: ext

/-- The `loop` of `determine_filename` (embedded_file.rs lines 53-77),
made structural with fuel: if the current candidate is unused, insert it
into the registry and return it; otherwise derive `base-{i}.ext` from the
original declared filename and retry with `i + 1`.  The `to_str()`
conversions cannot fail in this embedding (text is always valid), so the
two non-UTF-8 errors are unreachable. -/
def df_loop (filename : List Char) : Nat → List Char → Nat →
    List (List Char) → Except String (List Char × List (List Char))
  | 0, _, _, _ => Except.error "out of fuel"
  | fuel + 1, current, i, files =>
    if current ∈ files then
      match rust_extension filename with
      | none => Except.error "Embedded file has no extension"
      | some ext =>
        match strip_suffixL ext filename with
        | none => Except.error "Failed to strip extension from file name"
        | some pre =>
          df_loop filename fuel (mk_candidate (trim_dots pre) i ext) (i + 1) files
    else
      Except.ok (current, current :: files)

/-- `determine_filename` (embedded_file.rs lines 49-78) acting on the
`section.files` registry, embedded as a list of already-used names.  The
fuel bound `files.length + 2` covers every terminating Rust execution the
claims exercise; the loop only recurses while the candidate collides. -/
def determine_filename (files : List (List Char)) (filename : List Char) :
    Except String (List Char × List (List Char)) :=
  df_loop filename (files.length + 2) filename 0 files

/-- A style record with every flag cleared and every optional field empty. -/
def plain_run : ParagraphStyling :=
  ⟨false, false, false, false, false, false, none, none, none, none, none,
    none, none, none, false, false⟩

/-- A style record whose only set flag is `hyperlink`. -/
def hl_run : ParagraphStyling :=
  ⟨false, false, false, false, false, false, none, none, none, none, none,
    none, none, none, true, false⟩

/-- A run-level style record carrying a paragraph alignment, one of the
four unsupported run-level attributes. -/
def aligned_run : ParagraphStyling :=
  ⟨false, false, false, false, false, false, none, none, none, none,
    some ParagraphAlignment.center, none, none, none, false, false⟩

/-- The four run-level style attributes (rich_text.rs lines 201-221) for
which `parse_style` hits `unimplemented!()`: a paragraph alignment, or a
non-zero paragraph spacing-before, spacing-after, or exact line
spacing. -/
def unsupported_run_style (s : ParagraphStyling) : Prop :=
  s.paragraph_alignment.isSome = true ∨
  (∃ x, s.paragraph_space_before = some x ∧ x ≠ 0) ∨
  (∃ x, s.paragraph_space_after = some x ∧ x ≠ 0) ∨
  (∃ x, s.paragraph_line_spacing_exact = some x ∧ x ≠ 0)

lemma cutLoop_flatten : ∀ (idxs : List Nat) (text : List Char),
    (cutLoop text idxs).2 ++ (cutLoop text idxs).1.reverse.flatten = text := by
  intro idxs
  induction idxs with
  | nil => intro text; simp [cutLoop]
  | cons i rest ih =>
    intro text
    simp only [cutLoop, List.reverse_cons, List.flatten_append, List.flatten_cons,
      List.flatten_nil, List.append_nil]
    rw [← List.append_assoc, ih, List.take_append_drop]

lemma cutLoop_length : ∀ (idxs : List Nat) (text : List Char),
    (cutLoop text idxs).1.length = idxs.length := by
  intro idxs
  induction idxs with
  | nil => intro text; simp [cutLoop]
  | cons i rest ih => intro text; simp [cutLoop, ih]

lemma splitText_flatten (text : List Char) (indices : List Nat) :
    (splitText text indices).flatten = text := by
  simp only [splitText, List.reverse_append, List.reverse_cons, List.reverse_nil,
    List.nil_append, List.singleton_append, List.flatten_cons]
  exact cutLoop_flatten indices.reverse text

lemma splitText_length (text : List Char) (indices : List Nat) :
    (splitText text indices).length = indices.length + 1 := by
  simp [splitText, cutLoop_length]

/-- Claim C6: for every non-empty text and strictly ascending in-bounds
split points, the splitting loop of `parse_content` yields exactly
`indices.length + 1` parts which, concatenated in run order, reconstruct
the original text. -/
theorem c6_split_reconstructs (text : List Char) (indices : List Nat)
    (hne : text ≠ []) (hsorted : List.Pairwise (· < ·) indices)
    (hbound : ∀ i ∈ indices, i < text.length) :
    (splitText text indices).length = indices.length + 1 ∧
    (splitText text indices).flatten = text :=
  ⟨splitText_length text indices, splitText_flatten text indices⟩

theorem c6_split_reconstructs_witness :
    (splitText "hello world".data [3, 5]).length = [3, 5].length + 1 ∧
    (splitText "hello world".data [3, 5]).flatten = "hello world".data :=
  c6_split_reconstructs "hello world".data [3, 5] (by decide) (by decide)
    (by decide)

lemma zip_eq_zip_take {α β : Type} (l₁ : List α) (l₂ : List β) :
    l₁.zip l₂ = (l₁.take l₂.length).zip l₂ := by
  induction l₁ generalizing l₂ with
  | nil => simp
  | cons a as ih =>
    cases l₂ with
    | nil => simp
    | cons b bs => simp [List.zip_cons_cons, List.take_succ_cons, ih bs]

/-- Claim C2: when the style records are strictly fewer than the produced
text parts (allowed by the assertion `indices.len() + 1 >= styles.len()`),
the zip truncates at the styles, so `parse_content`'s output is computed
from the first `styles.length` parts only and the trailing parts are
silently dropped. -/
theorem c2_zip_truncates_trailing_parts (d : RichText)
    (ht : d.text ≠ []) (hi : d.text_run_indices ≠ [])
    (hs : d.text_run_formatting.length < d.text_run_indices.length + 1) :
    ((splitText d.text d.text_run_indices).zip d.text_run_formatting).length
        = d.text_run_formatting.length ∧
    parse_content d = Except.map fix_newlines
      (renderRuns (((splitText d.text d.text_run_indices).take
        d.text_run_formatting.length).zip d.text_run_formatting) false) := by
  refine ⟨?_, ?_⟩
  · rw [List.length_zip, splitText_length]
    omega
  · simp only [parse_content]
    rw [if_neg ht, if_neg hi, if_neg (by omega), ← zip_eq_zip_take]
    cases h : renderRuns ((splitText d.text d.text_run_indices).zip
        d.text_run_formatting) false <;> simp [Except.map]

theorem c2_zip_truncates_trailing_parts_witness :
    ((splitText "ab".data [1]).zip [plain_run]).length = [plain_run].length ∧
    parse_content ⟨"ab".data, [1], [plain_run]⟩ = Except.map fix_newlines
      (renderRuns (((splitText "ab".data [1]).take [plain_run].length).zip
        [plain_run]) false) :=
  c2_zip_truncates_trailing_parts ⟨"ab".data, [1], [plain_run]⟩
    (by decide) (by decide) (by decide)

lemma replaceChar_append (c : Char) (rep a b : List Char) :
    replaceChar c rep (a ++ b) = replaceChar c rep a ++ replaceChar c rep b := by
  induction a with
  | nil => simp [replaceChar]
  | cons x xs ih => simp [replaceChar, ih]

lemma replace3_single (x : Char) :
    replaceChar '\r' brTag (replaceChar '\n' brTag
        (replaceChar '\u000B' brTag [x]))
      = if x = '\u000B' ∨ x = '\n' ∨ x = '\r' then brTag else [x] := by
  by_cases h1 : x = '\u000B'
  · subst h1; decide
  · by_cases h2 : x = '\n'
    · subst h2; decide
    · by_cases h3 : x = '\r'
      · subst h3; decide
      · simp [replaceChar, h1, h2, h3]

lemma replace3_eq_flatMap (t : List Char) :
    replaceChar '\r' brTag (replaceChar '\n' brTag
        (replaceChar '\u000B' brTag t))
      = t.flatMap (fun x => if x = '\u000B' ∨ x = '\n' ∨ x = '\r' then brTag
          else [x]) := by
  induction t with
  | nil => simp [replaceChar]
  | cons x xs ih =>
    have hsplit : replaceChar '\u000B' brTag (x :: xs)
        = replaceChar '\u000B' brTag [x] ++ replaceChar '\u000B' brTag xs :=
      replaceChar_append '\u000B' brTag [x] xs
    rw [hsplit, replaceChar_append, replaceChar_append, replace3_single, ih,
      List.flatMap_cons]

lemma takeWhile_all_append (p : Char → Bool) (l r : List Char)
    (h : ∀ c ∈ l, p c = true) :
    (l ++ r).takeWhile p = l ++ r.takeWhile p := by
  induction l with
  | nil => simp
  | cons x xs ih =>
    simp only [List.cons_append, List.takeWhile_cons,
      h x (List.mem_cons_self x xs), if_true]
    rw [ih (fun c hc => h c (List.mem_cons_of_mem _ hc))]

lemma dropWhile_all_append (p : Char → Bool) (l r : List Char)
    (h : ∀ c ∈ l, p c = true) :
    (l ++ r).dropWhile p = r.dropWhile p := by
  induction l with
  | nil => simp
  | cons x xs ih =>
    simp only [List.cons_append, List.dropWhile_cons,
      h x (List.mem_cons_self x xs), if_true]
    exact ih (fun c hc => h c (List.mem_cons_of_mem _ hc))

lemma takeWhile_nil_of_head (p : Char → Bool) (r : List Char)
    (h : ∀ c, r.head? = some c → p c = false) : r.takeWhile p = [] := by
  cases r with
  | nil => rfl
  | cons x xs => simp [List.takeWhile_cons, h x rfl]

lemma dropWhile_id_of_head (p : Char → Bool) (r : List Char)
    (h : ∀ c, r.head? = some c → p c = false) : r.dropWhile p = r := by
  cases r with
  | nil => rfl
  | cons x xs => simp [List.dropWhile_cons, h x rfl]

lemma length_dropWhile_le (p : Char → Bool) (l : List Char) :
    (l.dropWhile p).length ≤ l.length := by
  induction l with
  | nil => simp
  | cons x xs ih =>
    rw [List.dropWhile_cons]
    by_cases h : p x
    · simp only [h, if_true]
      exact Nat.le_succ_of_le ih
    · simp [h]

lemma fixSpacesF_congr : ∀ (f1 : Nat) (l : List Char) (f2 : Nat),
    l.length ≤ f1 → l.length ≤ f2 → fixSpacesF f1 l = fixSpacesF f2 l := by
  intro f1
  induction f1 with
  | zero =>
    intro l f2 h1 h2
    have hl : l = [] := List.eq_nil_of_length_eq_zero (Nat.le_zero.mp h1)
    subst hl
    cases f2 <;> simp [fixSpacesF]
  | succ g ih =>
    intro l f2 h1 h2
    cases l with
    | nil => cases f2 <;> simp [fixSpacesF]
    | cons c cs =>
      cases f2 with
      | zero => simp at h2
      | succ m =>
        have hcs : cs.length ≤ g := by
          simp only [List.length_cons] at h1; omega
        have hcs2 : cs.length ≤ m := by
          simp only [List.length_cons] at h2; omega
        simp only [fixSpacesF]
        by_cases hb : brTag.isPrefixOf (c :: cs) ∧
            ((c :: cs).drop 4).takeWhile isWs ≠ []
        · rw [if_pos hb, if_pos hb]
          have hL : (((c :: cs).drop 4).dropWhile isWs).length ≤ cs.length := by
            have ha := length_dropWhile_le isWs ((c :: cs).drop 4)
            have hd : ((c :: cs).drop 4).length = (cs.length + 1) - 4 := by
              simp [List.length_drop]
            omega
          rw [ih (((c :: cs).drop 4).dropWhile isWs) m (by omega) (by omega)]
        · rw [if_neg hb, if_neg hb, ih cs m hcs hcs2]

lemma fixSpaces_fuel (fuel : Nat) (l : List Char) (h : l.length ≤ fuel) :
    fixSpacesF fuel l = fixSpaces l :=
  fixSpacesF_congr fuel l l.length h (Nat.le_refl _)

lemma isPrefixOf_append_self (p r : List Char) :
    p.isPrefixOf (p ++ r) = true :=
  List.isPrefixOf_iff_prefix.mpr (List.prefix_append p r)

lemma fixSpaces_br_ws (ws rest : List Char) (hne : ws ≠ [])
    (hws : ∀ c ∈ ws, isWs c = true)
    (hrest : ∀ c, rest.head? = some c → isWs c = false) :
    fixSpaces (brTag ++ (ws ++ rest))
      = brTag ++ (nbspRep (utf8_len ws) ++ fixSpaces rest) := by
  have htw : (ws ++ rest).takeWhile isWs = ws := by
    rw [takeWhile_all_append isWs ws rest hws,
      takeWhile_nil_of_head isWs rest hrest, List.append_nil]
  have hdw : (ws ++ rest).dropWhile isWs = rest := by
    rw [dropWhile_all_append isWs ws rest hws,
      dropWhile_id_of_head isWs rest hrest]
  have hlen : (brTag ++ (ws ++ rest)).length
      = (3 + ws.length + rest.length) + 1 := by
    simp only [brTag, List.length_append, List.length_cons, List.length_nil]
    omega
  rw [fixSpaces, hlen]
  show fixSpacesF ((3 + ws.length + rest.length) + 1)
      ('<' :: 'b' :: 'r' :: '>' :: (ws ++ rest)) = _
  simp only [fixSpacesF, List.drop_succ_cons, List.drop_zero]
  rw [htw, hdw]
  rw [if_pos ⟨isPrefixOf_append_self brTag (ws ++ rest), hne⟩,
    fixSpaces_fuel (3 + ws.length + rest.length) rest (by omega),
    List.append_assoc]

lemma utf8_len_spaces (n : Nat) : utf8_len (List.replicate n ' ') = n := by
  have h1 : charBytes ' ' = 1 := rfl
  rw [utf8_len, List.map_replicate, h1, List.sum_replicate, smul_eq_mul,
    Nat.mul_one]

/-- Claim C5: the whitespace normalizer replaces U+000B, line feed and
carriage return each independently with `<br>` (so `"\r\n"` becomes two
`<br>`s), and a run of N literal spaces immediately following a `<br>`
becomes exactly N `&nbsp;` entities; `"a\nb"` yields `"a<br>b"` and
`"\n  x"` yields `"<br>&nbsp;&nbsp;x"`. -/
theorem c5_fix_newlines_behavior :
    (∀ t : List Char,
      replaceChar '\r' brTag (replaceChar '\n' brTag
          (replaceChar '\u000B' brTag t))
        = t.flatMap (fun x => if x = '\u000B' ∨ x = '\n' ∨ x = '\r' then brTag
            else [x])) ∧
    (∀ (n : Nat) (rest : List Char), 0 < n →
      (∀ c, rest.head? = some c → isWs c = false) →
      fixSpaces (brTag ++ (List.replicate n ' ' ++ rest))
        = brTag ++ (nbspRep n ++ fixSpaces rest)) ∧
    fix_newlines "a\nb".data = "a<br>b".data ∧
    fix_newlines "\n  x".data = "<br>&nbsp;&nbsp;x".data ∧
    fix_newlines "\r\n".data = "<br><br>".data := by
  refine ⟨replace3_eq_flatMap, ?_, by decide, by decide, by decide⟩
  intro n rest hn hrest
  have hne : List.replicate n ' ' ≠ [] := by
    intro h
    have := List.length_replicate n ' '
    rw [h] at this
    simp at this
    omega
  have hws : ∀ c ∈ List.replicate n ' ', isWs c = true := by
    intro c hc
    rw [(List.mem_replicate.mp hc).2]
    decide
  have := fixSpaces_br_ws (List.replicate n ' ') rest hne hws hrest
  rwa [utf8_len_spaces] at this

theorem c5_fix_newlines_behavior_witness :
    (replaceChar '\r' brTag (replaceChar '\n' brTag
        (replaceChar '\u000B' brTag "\r\n".data))
      = "\r\n".data.flatMap (fun x =>
          if x = '\u000B' ∨ x = '\n' ∨ x = '\r' then brTag else [x])) ∧
    fixSpaces (brTag ++ (List.replicate 2 ' ' ++ ['x']))
      = brTag ++ (nbspRep 2 ++ fixSpaces ['x']) :=
  ⟨c5_fix_newlines_behavior.1 "\r\n".data,
   c5_fix_newlines_behavior.2.1 2 ['x'] (by decide)
     (fun c hc => by simp at hc; subst hc; decide)⟩

/-- Claim C10 counterexample: the replacement count is the UTF-8 byte
length of the matched whitespace run, not the character count.  The
single no-break-space character U+00A0 (one character, two UTF-8 bytes)
after a line break becomes two `&nbsp;` entities, refuting the
one-entity-per-character reading. -/
theorem c10_counterexample_nbsp_not_per_char :
    fix_newlines ['\n', '\u00A0', 'x'] = "<br>&nbsp;&nbsp;x".data ∧
    fix_newlines ['\n', '\u00A0', 'x'] ≠ "<br>&nbsp;x".data ∧
    ['\u00A0'].length = 1 :=
  ⟨by decide, by decide, rfl⟩

/-- Claim C10 (amended): the post-break substitution applies to every run
of `\s` whitespace characters (tabs included) immediately following a
`<br>`, replacing the run with one `&nbsp;` entity per UTF-8 byte of the
run (one per character for ASCII whitespace such as space and tab); in
particular a tab directly after a line break becomes a single `&nbsp;`. -/
theorem c10_nbsp_per_utf8_byte :
    (∀ (ws rest : List Char), ws ≠ [] → (∀ c ∈ ws, isWs c = true) →
      (∀ c, rest.head? = some c → isWs c = false) →
      fixSpaces (brTag ++ (ws ++ rest))
        = brTag ++ (nbspRep (utf8_len ws) ++ fixSpaces rest)) ∧
    fix_newlines ['\n', '\t', 'x'] = "<br>&nbsp;x".data :=
  ⟨fixSpaces_br_ws, by decide⟩

theorem c10_nbsp_per_utf8_byte_witness :
    fixSpaces (brTag ++ (['\t'] ++ ['x']))
      = brTag ++ (nbspRep (utf8_len ['\t']) ++ fixSpaces ['x']) :=
  c10_nbsp_per_utf8_byte.1 ['\t'] ['x'] (by decide)
    (fun c hc => by simp at hc; subst hc; decide)
    (fun c hc => by simp at hc; subst hc; decide)

lemma strip_marker_append (rest : List Char) :
    strip_marker (HYPERLINK_MARKER ++ rest) = some rest := by
  simp [strip_marker, isPrefixOf_append_self, List.drop_left]

lemma strip_suffix_quote_append (url : List Char) :
    strip_suffix_quote (url ++ ['"']) = some url := by
  simp [strip_suffix_quote, List.reverse_append]

lemma strip_suffix_quote_none (l : List Char) (h : l.getLast? ≠ some '"') :
    strip_suffix_quote l = none := by
  rw [strip_suffix_quote]
  cases hr : l.reverse with
  | nil => rfl
  | cons c rest =>
    have hc : l.getLast? = some c := by
      rw [List.getLast?_eq_head?_reverse, hr]
      rfl
    have hne : ¬ (c = '"') := fun he => h (he ▸ hc)
    simp [hne]

/-- Claim C3: a hyperlink-flagged run whose text is the reserved marker
followed by a URL and a closing quote renders as just the opening anchor
tag `<a href="{url}" style="{style}">` (no visible text), and a
hyperlink-flagged run with no marker processed with the carried state
closed renders as the complete self-contained anchor
`<a href="{text}" style="{style}">{text}</a>`. -/
theorem c3_hyperlink_anchor_forms :
    (∀ (url : List Char) (s : ParagraphStyling) (ss : StyleSet) (inH : Bool),
      s.hyperlink = true → parse_style s = Except.ok ss →
      render_hyperlink (HYPERLINK_MARKER ++ (url ++ ['"'])) s inH
        = Except.ok ("<a href=\"".data ++ url ++ "\" style=\"".data ++
            serialize ss ++ "\">".data)) ∧
    (∀ (t : List Char) (s : ParagraphStyling) (ss : StyleSet),
      s.hyperlink = true → parse_style s = Except.ok ss →
      HYPERLINK_MARKER.isPrefixOf t = false →
      render_hyperlink t s false
        = Except.ok (("<a href=\"".data ++ t ++ "\" style=\"".data ++
            serialize ss ++ "\">".data) ++ t ++ "</a>".data)) := by
  constructor
  · intro url s ss inH hh hps
    simp [render_hyperlink, hps, isPrefixOf_append_self, strip_marker_append,
      strip_suffix_quote_append, a_tag_open]
  · intro t s ss hh hps hpref
    simp [render_hyperlink, hps, hpref, a_tag_open]

theorem c3_hyperlink_anchor_forms_witness :
    render_hyperlink (HYPERLINK_MARKER ++ ("http://x".data ++ ['"'])) hl_run
        false
      = Except.ok ("<a href=\"".data ++ "http://x".data ++
          "\" style=\"".data ++ serialize [] ++ "\">".data) ∧
    render_hyperlink "http://x".data hl_run false
      = Except.ok (("<a href=\"".data ++ "http://x".data ++
          "\" style=\"".data ++ serialize [] ++ "\">".data) ++
          "http://x".data ++ "</a>".data) :=
  ⟨c3_hyperlink_anchor_forms.1 "http://x".data hl_run [] false rfl rfl,
   c3_hyperlink_anchor_forms.2 "http://x".data hl_run [] rfl rfl
     (by decide)⟩

/-- Claim C8: a hyperlink-flagged run whose text starts with the reserved
marker prefix but does not end with a closing double quote makes
`render_hyperlink` return an error instead of any rendered output. -/
theorem c8_malformed_marker_is_error (t : List Char) (s : ParagraphStyling)
    (inH : Bool) (hh : s.hyperlink = true)
    (hpref : HYPERLINK_MARKER.isPrefixOf t = true)
    (hq : t.getLast? ≠ some '"') :
    ∃ e, render_hyperlink t s inH = Except.error e := by
  cases hps : parse_style s with
  | error e => exact ⟨e, by simp [render_hyperlink, hps]⟩
  | ok ss =>
    refine ⟨"Hyperlink has no end marker", ?_⟩
    have hdecomp : t = HYPERLINK_MARKER ++ t.drop HYPERLINK_MARKER.length := by
      obtain ⟨r, hr⟩ := List.isPrefixOf_iff_prefix.mp hpref
      rw [← hr, List.drop_left]
    have hrest_ne : t.drop HYPERLINK_MARKER.length ≠ [] := by
      intro h0
      apply hq
      rw [hdecomp, h0, List.append_nil]
      decide
    have hlast : (t.drop HYPERLINK_MARKER.length).getLast? = t.getLast? := by
      conv_rhs => rw [hdecomp]
      rw [List.getLast?_append_of_ne_nil _ hrest_ne]
    have hnone : strip_suffix_quote (t.drop HYPERLINK_MARKER.length) = none :=
      strip_suffix_quote_none _ (hlast ▸ hq)
    simp [render_hyperlink, hps, hpref, strip_marker, hnone]

theorem c8_malformed_marker_is_error_witness :
    ∃ e, render_hyperlink (HYPERLINK_MARKER ++ ['u']) hl_run false
      = Except.error e :=
  c8_malformed_marker_is_error (HYPERLINK_MARKER ++ ['u']) hl_run false rfl
    (by decide) (by decide)

lemma parse_style_unsupported (s : ParagraphStyling)
    (h : unsupported_run_style s) :
    parse_style s = Except.error "not implemented" := by
  rcases h with h | ⟨x, hx, hne⟩ | ⟨x, hx, hne⟩ | ⟨x, hx, hne⟩
  · simp [parse_style, h]
  · have hb : spacing_nonzero s.paragraph_space_before = true := by
      simp [spacing_nonzero, hx, hne]
    by_cases ha : s.paragraph_alignment.isSome <;>
      simp [parse_style, ha, hb]
  · have hb : spacing_nonzero s.paragraph_space_after = true := by
      simp [spacing_nonzero, hx, hne]
    by_cases ha : s.paragraph_alignment.isSome <;>
      by_cases h1 : spacing_nonzero s.paragraph_space_before <;>
        simp [parse_style, ha, h1, hb]
  · have hb : spacing_nonzero s.paragraph_line_spacing_exact = true := by
      simp [spacing_nonzero, hx, hne]
    by_cases ha : s.paragraph_alignment.isSome <;>
      by_cases h1 : spacing_nonzero s.paragraph_space_before <;>
        by_cases h2 : spacing_nonzero s.paragraph_space_after <;>
          simp [parse_style, ha, h1, h2, hb]

lemma renderRuns_error_of_unsupported :
    ∀ (runs : List (List Char × ParagraphStyling)) (b : Bool),
      (∃ p ∈ runs, unsupported_run_style p.2) →
      ∃ e, renderRuns runs b = Except.error e := by
  intro runs
  induction runs with
  | nil =>
    intro b h
    obtain ⟨p, hp, _⟩ := h
    exact absurd hp (List.not_mem_nil p)
  | cons hd tl ih =>
    intro b h
    obtain ⟨p, hp, hu⟩ := h
    rcases List.mem_cons.mp hp with heq | hmem
    · subst heq
      have herr := parse_style_unsupported p.2 hu
      obtain ⟨t, st⟩ := p
      by_cases hh : st.hyperlink
      · have hrh : render_hyperlink t st b = Except.error "not implemented" := by
          simp [render_hyperlink, herr]
        exact ⟨"not implemented", by simp [renderRuns, hh, hrh]⟩
      · exact ⟨"not implemented", by simp [renderRuns, hh, herr]⟩
    · obtain ⟨t, st⟩ := hd
      by_cases hh : st.hyperlink
      · obtain ⟨e, he⟩ := ih true ⟨p, hmem, hu⟩
        cases hrh : render_hyperlink t st b with
        | error e2 => exact ⟨e2, by simp [renderRuns, hh, hrh]⟩
        | ok piece => exact ⟨e, by simp [renderRuns, hh, hrh, he]⟩
      · obtain ⟨e, he⟩ := ih false ⟨p, hmem, hu⟩
        cases hps : parse_style st with
        | error e2 => exact ⟨e2, by simp [renderRuns, hh, hps]⟩
        | ok ss => exact ⟨e, by simp [renderRuns, hh, hps, he]⟩

/-- Claim C4: any run-level style record with a paragraph alignment or a
non-zero spacing-before, spacing-after or exact line spacing aborts the
conversion: `parse_style` fails with the `unimplemented!` diagnostic
rather than dropping the attribute, and a run sequence containing such a
record makes the whole run-rendering fold of `parse_content` return a
tagged failure. -/
theorem c4_unsupported_run_style_fails :
    (∀ s : ParagraphStyling, unsupported_run_style s →
      parse_style s = Except.error "not implemented") ∧
    (∀ (runs : List (List Char × ParagraphStyling)) (b : Bool),
      (∃ p ∈ runs, unsupported_run_style p.2) →
      ∃ e, renderRuns runs b = Except.error e) :=
  ⟨parse_style_unsupported, renderRuns_error_of_unsupported⟩

theorem c4_unsupported_run_style_fails_witness :
    parse_style aligned_run = Except.error "not implemented" ∧
    ∃ e, renderRuns [("x".data, aligned_run)] false = Except.error e :=
  ⟨c4_unsupported_run_style_fails.1 aligned_run (Or.inl rfl),
   c4_unsupported_run_style_fails.2 [("x".data, aligned_run)] false
     ⟨("x".data, aligned_run), List.mem_cons_self _ _, Or.inl rfl⟩⟩

/-- Claim C1 fails on the code: after the continuation run `"click"`
closes the anchor opened by the marker run, `parse_content` still carries
`in_hyperlink = true` (rich_text.rs line 75 sets it unconditionally for
every hyperlink-flagged run), so the following marker-less
hyperlink-flagged run `"http://y"` is again treated as a continuation and
emits the dangling `http://y</a>` instead of the self-contained anchor
`<a href="http://y" style="">http://y</a>` that the spec requires. -/
theorem c1_continuation_leaves_state_open :
    parse_content ⟨"\uFDDFHYPERLINK \"http://x\"clickhttp://y".data, [21, 26],
      [hl_run, hl_run, hl_run]⟩
      = Except.ok "<a href=\"http://x\" style=\"\">click</a>http://y</a>".data :=
  rfl

lemma df_loop_ok_inv (filename : List Char) :
    ∀ (fuel : Nat) (current : List Char) (i : Nat) (files : List (List Char))
      (n : List Char) (fs : List (List Char)),
      df_loop filename fuel current i files = Except.ok (n, fs) →
      n ∉ files ∧ fs = n :: files := by
  intro fuel
  induction fuel with
  | zero =>
    intro current i files n fs h
    simp [df_loop] at h
  | succ f ih =>
    intro current i files n fs h
    by_cases hc : current ∈ files
    · simp only [df_loop, if_pos hc] at h
      split at h
      · simp at h
      · split at h
        · simp at h
        · exact ih _ _ _ _ _ h
    · simp only [df_loop, if_neg hc] at h
      simp only [Except.ok.injEq, Prod.mk.injEq] at h
      obtain ⟨h1, h2⟩ := h
      subst h1
      subst h2
      exact ⟨hc, rfl⟩

lemma df_loop_not_mem (filename current : List Char) (f i : Nat)
    (files : List (List Char)) (h : current ∉ files) :
    df_loop filename (f + 1) current i files
      = Except.ok (current, current :: files) := by
  simp only [df_loop, if_neg h]

/-- Claim C7: every successfully returned filename was absent from the
registry and is registered on return, so two successive calls never
return the same name; in particular three calls with `img.png` in the
same scope yield `img.png`, `img-0.png`, `img-1.png`. -/
theorem c7_filename_dedup_unique :
    (∀ (files : List (List Char)) (fn n : List Char)
       (fs : List (List Char)),
       determine_filename files fn = Except.ok (n, fs) →
       n ∉ files ∧ fs = n :: files) ∧
    (∀ (files : List (List Char)) (fn1 fn2 n1 n2 : List Char)
       (fs1 fs2 : List (List Char)),
       determine_filename files fn1 = Except.ok (n1, fs1) →
       determine_filename fs1 fn2 = Except.ok (n2, fs2) →
       n2 ≠ n1) ∧
    (determine_filename [] "img.png".data
        = Except.ok ("img.png".data, ["img.png".data]) ∧
     determine_filename ["img.png".data] "img.png".data
        = Except.ok ("img-0.png".data, ["img-0.png".data, "img.png".data]) ∧
     determine_filename ["img-0.png".data, "img.png".data] "img.png".data
        = Except.ok ("img-1.png".data,
            ["img-1.png".data, "img-0.png".data, "img.png".data])) := by
  refine ⟨?_, ?_, rfl, rfl, rfl⟩
  · intro files fn n fs h
    exact df_loop_ok_inv fn _ fn 0 files n fs h
  · intro files fn1 fn2 n1 n2 fs1 fs2 h1 h2
    have r1 := df_loop_ok_inv fn1 _ fn1 0 files n1 fs1 h1
    have r2 := df_loop_ok_inv fn2 _ fn2 0 fs1 n2 fs2 h2
    intro heq
    apply r2.1
    rw [r1.2, heq]
    exact List.mem_cons_self _ _

theorem c7_filename_dedup_unique_witness :
    ("img.png".data ∉ ([] : List (List Char)) ∧
      ["img.png".data] = "img.png".data :: []) ∧
    "img-0.png".data ≠ "img.png".data :=
  ⟨c7_filename_dedup_unique.1 [] "img.png".data "img.png".data
      ["img.png".data] rfl,
   c7_filename_dedup_unique.2.1 [] "img.png".data "img.png".data
      "img.png".data "img-0.png".data ["img.png".data]
      ["img-0.png".data, "img.png".data] rfl rfl⟩

/-- Claim C9: a not-yet-registered filename is returned unchanged and
registered even when it has no extension; the
"Embedded file has no extension" error can only arise when the declared
filename is already registered and a disambiguated candidate must be
derived. -/
theorem c9_no_extension_error_needs_collision :
    (∀ (files : List (List Char)) (fn : List Char),
      rust_extension fn = none → fn ∉ files →
      determine_filename files fn = Except.ok (fn, fn :: files)) ∧
    (∀ (files : List (List Char)) (fn : List Char),
      determine_filename files fn
        = Except.error "Embedded file has no extension" →
      fn ∈ files) := by
  constructor
  · intro files fn hext hnm
    exact df_loop_not_mem fn fn (files.length + 1) 0 files hnm
  · intro files fn herr
    by_cases hc : fn ∈ files
    · exact hc
    · exfalso
      have h2 : determine_filename files fn = Except.ok (fn, fn :: files) :=
        df_loop_not_mem fn fn (files.length + 1) 0 files hc
      rw [h2] at herr
      simp at herr

theorem c9_no_extension_error_needs_collision_witness :
    determine_filename [] "noext".data
      = Except.ok ("noext".data, ["noext".data]) ∧
    "noext".data ∈ ["noext".data] :=
  ⟨c9_no_extension_error_needs_collision.1 [] "noext".data rfl
      (by decide),
   c9_no_extension_error_needs_collision.2 ["noext".data] "noext".data rfl⟩
